import Mathlib

/-!
Verification of the politeia tstore backend against its specification.

The definitions below are shallow embeddings of the Go sources
`politeiad/backendv2/tstorebe/tstorebe.go`,
`politeiad/backendv2/tstorebe/tstore/anchor.go` and the pi plugin's
billing-status command.  Machine integers are modelled as `Nat`/`Int`
(no overflow is relevant at the modelled call sites), fallible Go code
returns `Option`/`Except`, and calls into third-party libraries
(gozaru, sha256, base64, MIME detection, dcrtime) are taken as explicit
function parameters of the embedded operations.
-/

namespace Politeia

/-- Record status (backendv2 `StatusT`): invalid, unreviewed, public,
censored, archived. -/
inductive StatusT
  | invalid
  | unreviewed
  | public
  | censored
  | archived
deriving DecidableEq, Repr

/-- Record state (backendv2 `StateT`): unvetted or vetted. -/
inductive StateT
  | unvetted
  | vetted
deriving DecidableEq, Repr

/-- The control fields of `backend.RecordMetadata` that the record engine
computes: state, status, version and iteration.  The token (constant per
record), wall-clock timestamp and merkle root carried by the Go struct do
not affect the status/iteration logic and are modelled separately where a
claim needs them. -/
structure RecordMetadata where
  state : StateT
  status : StatusT
  version : Nat
  iteration : Nat
deriving DecidableEq, Repr

/-- The allowed record status changes (tstorebe.go `statusChanges` map):
`statusChanges cur new = true` iff `statusChanges[cur][new]` exists in the
Go map. -/
def statusChanges (cur new : StatusT) : Bool :=
  match cur, new with
  | .unreviewed, .public => true
  | .unreviewed, .censored => true
  | .public, .censored => true
  | .public, .archived => true
  | _, _ => false

/-- tstorebe.go `statusChangeIsAllowed`: whether the provided status change
is allowed. -/
def statusChangeIsAllowed (cur new : StatusT) : Bool :=
  statusChanges cur new

/-- tstorebe.go `recordMetadataNew`, restricted to the control fields
(the merkle root computed there is modelled in `recordEdit`). -/
def recordMetadataNew (state : StateT) (status : StatusT)
    (version iteration : Nat) : RecordMetadata :=
  { state := state, status := status, version := version,
    iteration := iteration }

/-- Content validation error codes (backendv2 `ContentErrorCodeT`).
The Go `ContentError` also carries a free-form context string, which the
model omits. -/
inductive ContentErrorCode
  | metadataStreamInvalid
  | metadataStreamDuplicate
  | filesEmpty
  | fileNameInvalid
  | fileNameDuplicate
  | fileDigestInvalid
  | filePayloadInvalid
  | fileMIMETypeInvalid
  | fileMIMETypeUnsupported
deriving DecidableEq, Repr

/-- Backend errors returned by the modelled record operations. -/
inductive BackendError
  | recordNotFound
  | recordLocked
  | noRecordChanges
  | shutdown
  | statusTransition (cur new : StatusT)
  | content (code : ContentErrorCode)
  | unknownStatus (status : StatusT)
deriving DecidableEq, Repr

/-- tstorebe.go `RecordSetStatus`, record-metadata part: validates the
transition with `statusChangeIsAllowed`; on the public transition the state
becomes vetted and version and iteration reset to 1, otherwise state and
version are kept and the iteration is incremented; the final Go switch on
the new status picks the save routine and has an unreachable default
(`unknown status`) branch, modelled by the final match. -/
def recordSetStatus (rm : RecordMetadata) (status : StatusT) :
    Except BackendError RecordMetadata :=
  if statusChangeIsAllowed rm.status status then
    let state := if status = .public then StateT.vetted else rm.state
    let version := if status = .public then 1 else rm.version
    let iter := if status = .public then 1 else rm.iteration + 1
    let recordMD := recordMetadataNew state status version iter
    match status with
    | .public => .ok recordMD
    | .archived => .ok recordMD
    | .censored => .ok recordMD
    | _ => .error (.unknownStatus status)
  else
    .error (.statusTransition rm.status status)

/-- The record metadata created by tstorebe.go `RecordNew`:
`recordMetadataNew(token, files, StateUnvetted, StatusUnreviewed, 1, 1)`. -/
def recordNewMetadata : RecordMetadata :=
  recordMetadataNew .unvetted .unreviewed 1 1

/-- The record metadata saved by a successful tstorebe.go `RecordEdit`:
`recordMetadataNew(..., rm.State, rm.Status, rm.Version+1, rm.Iteration+1)`. -/
def recordEditMetadataOf (rm : RecordMetadata) : RecordMetadata :=
  recordMetadataNew rm.state rm.status (rm.version + 1) (rm.iteration + 1)

/-- The record metadata saved by a successful tstorebe.go
`RecordEditMetadata`:
`recordMetadataNew(..., rm.State, rm.Status, rm.Version, rm.Iteration+1)`. -/
def recordEditMetadataOnlyOf (rm : RecordMetadata) : RecordMetadata :=
  recordMetadataNew rm.state rm.status rm.version (rm.iteration + 1)

/-- A mutation applied to an existing record. -/
inductive RecordOp
  | edit
  | editMetadata
  | setStatus (status : StatusT)
deriving DecidableEq, Repr

/-- The record metadata produced by one successful mutation (the content
and freeze checks that can also make the Go operations fail do not change
the metadata computation modelled here). -/
def applyOp (op : RecordOp) (rm : RecordMetadata) :
    Except BackendError RecordMetadata :=
  match op with
  | .edit => .ok (recordEditMetadataOf rm)
  | .editMetadata => .ok (recordEditMetadataOnlyOf rm)
  | .setStatus s => recordSetStatus rm s

/-- The successive saved record metadata produced by a sequence of
mutations starting from record metadata `rm`; a failed mutation saves
nothing and leaves the record unchanged. -/
def savedFrom (rm : RecordMetadata) : List RecordOp → List RecordMetadata
  | [] => []
  | op :: ops =>
    match applyOp op rm with
    | .ok rm2 => rm2 :: savedFrom rm2 ops
    | .error _ => savedFrom rm ops

/-- The iterations of the successive saved record metadata for a record
created by `RecordNew` and then mutated by `ops`. -/
def savedIterations (ops : List RecordOp) : List Nat :=
  (recordNewMetadata :: savedFrom recordNewMetadata ops).map
    RecordMetadata.iteration

/-- C1 counterexample: the sequence `RecordNew`, `RecordEdit`,
`RecordSetStatus public` saves iterations `[1, 2, 1]` — the public
transition resets the iteration to 1, so the iteration is not strictly
increasing across successive saved iterations. -/
theorem savedIterations_not_strictly_increasing :
    savedIterations [.edit, .setStatus .public] = [1, 2, 1] ∧
      ¬ (savedIterations [.edit, .setStatus .public]).Chain' (· < ·) := by
  have h : savedIterations [.edit, .setStatus .public] = [1, 2, 1] := by decide
  refine ⟨h, ?_⟩
  rw [h]
  simp [List.chain'_cons]

/-- C1 (amended): every successful mutation other than a status change to
public produces an iteration exactly one greater than (hence strictly
greater than) the previous saved iteration; a successful status change to
public resets the iteration to 1, which may be smaller than the previous
iteration. -/
theorem applyOp_iteration (rm rm2 : RecordMetadata) (op : RecordOp)
    (h : applyOp op rm = .ok rm2) :
    (op ≠ .setStatus .public →
      rm2.iteration = rm.iteration + 1 ∧ rm.iteration < rm2.iteration) ∧
    (op = .setStatus .public → rm2.iteration = 1) := by
  cases op with
  | edit =>
    simp only [applyOp, Except.ok.injEq] at h
    subst h
    simp [recordEditMetadataOf, recordMetadataNew]
  | editMetadata =>
    simp only [applyOp, Except.ok.injEq] at h
    subst h
    simp [recordEditMetadataOnlyOf, recordMetadataNew]
  | setStatus s =>
    simp only [applyOp, recordSetStatus] at h
    by_cases hal : statusChangeIsAllowed rm.status s = true
    · rw [if_pos hal] at h
      cases s
      · cases h
      · cases h
      · simp only [recordMetadataNew, reduceIte, Except.ok.injEq] at h
        subst h
        exact ⟨fun hne => absurd rfl hne, fun _ => rfl⟩
      · simp only [recordMetadataNew, reduceIte, Except.ok.injEq] at h
        subst h
        exact ⟨fun _ => ⟨rfl, Nat.lt_succ_self _⟩,
          fun hc => absurd hc (by decide)⟩
      · simp only [recordMetadataNew, reduceIte, Except.ok.injEq] at h
        subst h
        exact ⟨fun _ => ⟨rfl, Nat.lt_succ_self _⟩,
          fun hc => absurd hc (by decide)⟩
    · rw [if_neg hal] at h
      cases h

/-- C1 witness for the amended theorem. -/
theorem applyOp_iteration_witness :
    applyOp .editMetadata ⟨.unvetted, .unreviewed, 1, 4⟩ =
        .ok ⟨.unvetted, .unreviewed, 1, 5⟩ ∧
      (⟨.unvetted, .unreviewed, 1, 5⟩ : RecordMetadata).iteration =
        (⟨.unvetted, .unreviewed, 1, 4⟩ : RecordMetadata).iteration + 1 := by
  refine ⟨rfl, ?_⟩
  exact (applyOp_iteration ⟨.unvetted, .unreviewed, 1, 4⟩
    ⟨.unvetted, .unreviewed, 1, 5⟩ .editMetadata rfl).1
    (by decide) |>.1

/-- C2: `statusChangeIsAllowed` permits exactly the transitions
unreviewed→public, unreviewed→censored, public→censored and
public→archived; for every other pair `RecordSetStatus` returns
`StatusTransitionError{from, to}` without saving a new iteration (the
model returns the error and no new record metadata). -/
theorem recordSetStatus_transition_table (rm : RecordMetadata)
    (cur new : StatusT) :
    (statusChangeIsAllowed cur new = true ↔
      ((cur = .unreviewed ∧ new = .public) ∨
       (cur = .unreviewed ∧ new = .censored) ∨
       (cur = .public ∧ new = .censored) ∨
       (cur = .public ∧ new = .archived))) ∧
    (statusChangeIsAllowed rm.status new = false →
      recordSetStatus rm new = .error (.statusTransition rm.status new)) := by
  constructor
  · cases cur <;> cases new <;> decide
  · intro h
    simp [recordSetStatus, h]

/-- C2 witness: the transition censored→public is not allowed and fails
with the structured transition error. -/
theorem recordSetStatus_transition_table_witness :
    statusChangeIsAllowed .censored .public = false ∧
      recordSetStatus ⟨.vetted, .censored, 1, 3⟩ .public =
        .error (.statusTransition .censored .public) :=
  ⟨by decide,
    (recordSetStatus_transition_table ⟨.vetted, .censored, 1, 3⟩
      .censored .public).2 (by decide)⟩

/-- C3: a successful `RecordSetStatus` to public saves
state=vetted, version=1, iteration=1; a successful `RecordSetStatus` to
any other allowed status keeps state and version and saves
iteration = previous iteration + 1. -/
theorem recordSetStatus_metadata (rm : RecordMetadata) (new : StatusT)
    (h : statusChangeIsAllowed rm.status new = true) :
    (new = .public →
      recordSetStatus rm new = .ok (recordMetadataNew .vetted .public 1 1)) ∧
    (new ≠ .public →
      recordSetStatus rm new =
        .ok (recordMetadataNew rm.state new rm.version (rm.iteration + 1))) := by
  cases hs : rm.status <;> cases new <;>
    simp_all [recordSetStatus, statusChangeIsAllowed, statusChanges,
      recordMetadataNew]

/-- C3 witness: a public transition resets the metadata, an archived
transition keeps state and version and increments the iteration. -/
theorem recordSetStatus_metadata_witness :
    recordSetStatus ⟨.unvetted, .unreviewed, 3, 7⟩ .public =
        .ok (recordMetadataNew .vetted .public 1 1) ∧
      recordSetStatus ⟨.vetted, .public, 2, 5⟩ .archived =
        .ok (recordMetadataNew .vetted .archived 2 6) :=
  ⟨(recordSetStatus_metadata ⟨.unvetted, .unreviewed, 3, 7⟩ .public
      (by decide)).1 rfl,
    (recordSetStatus_metadata ⟨.vetted, .public, 2, 5⟩ .archived
      (by decide)).2 (by decide)⟩

/-- C10: every allowed status change targets public, censored or archived,
so once the transition check has passed `RecordSetStatus` always reaches
one of the three named switch cases and the default unknown-status branch
is unreachable (the model returns a saved record metadata, never the
unknown-status error). -/
theorem statusChangeIsAllowed_target (rm : RecordMetadata) (new : StatusT)
    (h : statusChangeIsAllowed rm.status new = true) :
    (new = .public ∨ new = .censored ∨ new = .archived) ∧
    ∃ rm2, recordSetStatus rm new = .ok rm2 := by
  cases hs : rm.status <;> cases new <;>
    simp_all [recordSetStatus, statusChangeIsAllowed, statusChanges]

/-- C10 witness. -/
theorem statusChangeIsAllowed_target_witness :
    (StatusT.censored = .public ∨ StatusT.censored = .censored ∨
        StatusT.censored = .archived) ∧
      ∃ rm2, recordSetStatus ⟨.unvetted, .unreviewed, 1, 1⟩ .censored =
        .ok rm2 :=
  statusChangeIsAllowed_target ⟨.unvetted, .unreviewed, 1, 1⟩ .censored
    (by decide)

/-! ### Anchor engine (tstore/anchor.go) -/

/-- One digest's entry in a dcrtime VerifyBatch reply: the digest, its
result code, and the chain information (transaction and chainTimestamp)
consulted by `anchorWait`. -/
structure VerifyDigest where
  digest : String
  result : Nat
  transaction : String
  chainTimestamp : Int
deriving DecidableEq, Repr

/-- dcrtime `ResultOK`. -/
def resultOK : Nat := 1

/-- The hex encoding of a zeroed-out 32-byte SHA256 digest
(`hex.EncodeToString(make([]byte, sha256.Size))` in anchor.go): a reply
whose transaction equals this string has not been sent yet. -/
def zeroTransaction : String := String.mk (List.replicate 64 '0')

/-- anchor.go `anchorWait`: a reply counts as anchored when its result is
OK, its transaction is not the zeroed digest, and its chainTimestamp is
non-zero; each failing check is a `break` in the Go loop. -/
def digestAnchored (v : VerifyDigest) : Bool :=
  if v.result ≠ resultOK then false
  else if v.transaction = zeroTransaction then false
  else if v.chainTimestamp = 0 then false
  else true

/-- anchor.go `anchorWait`: the `anchored` set built from a VerifyBatch
reply. Processing stops at the first reply that is not yet anchored (the
Go `break`), and the map keys deduplicate digests (`List.insert`). -/
def anchoredDigests (acc : List String) : List VerifyDigest → List String
  | [] => acc
  | v :: rest =>
    if digestAnchored v then anchoredDigests (acc.insert v.digest) rest
    else acc

/-- anchor.go `anchorWait`: an attempt proceeds to save anchors only when
`len(anchored) == len(digests)`. -/
def attemptSuccess (digests : List String) (replies : List VerifyDigest) :
    Bool :=
  (anchoredDigests [] replies).length == digests.length

/-- anchor.go `anchorWait` polling period in minutes (`5 * time.Minute`). -/
def periodMinutes : Nat := 5

/-- anchor.go `anchorWait` retry count: `180 / int(period.Minutes())`. -/
def anchorRetries : Nat := 180 / periodMinutes

/-- The `anchorWait` polling loop. `oracle n` is the VerifyBatch reply the
external service returns on attempt `n`, or `none` when `verifyBatch`
errors (which aborts the wait). The result is the attempt index on which
the batch succeeded and the anchors were saved, or `none` on error or
timeout. -/
def anchorWaitGo (digests : List String)
    (oracle : Nat → Option (List VerifyDigest)) (attempt : Nat) :
    Nat → Option Nat
  | 0 => none
  | fuel + 1 =>
    match oracle attempt with
    | none => none
    | some replies =>
      if attemptSuccess digests replies then some attempt
      else anchorWaitGo digests oracle (attempt + 1) fuel

/-- anchor.go `anchorWait`: poll starting at attempt 0 with `anchorRetries`
attempts remaining. -/
def anchorWait (digests : List String)
    (oracle : Nat → Option (List VerifyDigest)) : Option Nat :=
  anchorWaitGo digests oracle 0 anchorRetries

theorem anchorWaitGo_some (digests : List String)
    (oracle : Nat → Option (List VerifyDigest)) :
    ∀ fuel attempt i, anchorWaitGo digests oracle attempt fuel = some i →
      i < attempt + fuel ∧
        ∃ replies, oracle i = some replies ∧
          attemptSuccess digests replies = true := by
  intro fuel
  induction fuel with
  | zero => intro attempt i h; cases h
  | succ n ih =>
    intro attempt i h
    simp only [anchorWaitGo] at h
    split at h
    · cases h
    · rename_i replies heq
      split at h
      · rename_i hs
        cases h
        exact ⟨by omega, replies, heq, hs⟩
      · obtain ⟨h1, h2⟩ := ih (attempt + 1) i h
        exact ⟨by omega, h2⟩

theorem anchoredDigests_length_lt (rs : List VerifyDigest) :
    ∀ acc : List String, (∃ v ∈ rs, digestAnchored v = false) →
      (anchoredDigests acc rs).length < acc.length + rs.length := by
  induction rs with
  | nil => intro acc h; obtain ⟨v, hv, _⟩ := h; cases hv
  | cons v rest ih =>
    intro acc h
    simp only [anchoredDigests]
    by_cases ha : digestAnchored v = true
    · rw [if_pos ha]
      obtain ⟨w, hw, hwf⟩ := h
      rcases List.mem_cons.mp hw with rfl | hwr
      · rw [ha] at hwf; cases hwf
      · have h2 := ih (acc.insert v.digest) ⟨w, hwr, hwf⟩
        have h3 : (acc.insert v.digest).length ≤ acc.length + 1 := by
          by_cases hm : v.digest ∈ acc
          · rw [List.insert_of_mem hm]; omega
          · rw [List.insert_of_not_mem hm]; simp
        simp only [List.length_cons]
        omega
    · rw [if_neg ha]
      simp only [List.length_cons]
      omega

theorem attemptSuccess_all (digests : List String)
    (replies : List VerifyDigest) (hlen : replies.length = digests.length)
    (h : attemptSuccess digests replies = true) :
    ∀ v ∈ replies, digestAnchored v = true := by
  intro v hv
  by_contra hc
  have hf : digestAnchored v = false := by
    cases hb : digestAnchored v
    · rfl
    · exact absurd hb hc
  have hlt := anchoredDigests_length_lt replies [] ⟨v, hv, hf⟩
  simp only [attemptSuccess, beq_iff_eq] at h
  simp only [List.length_nil] at hlt
  omega

/-- C6: `anchorWait` performs at most `anchorRetries = 180 / 5 = 36`
polling attempts at 5-minute intervals, and it proceeds to save anchors
only on an attempt whose VerifyBatch reply marks every digest in the batch
as anchored, where anchored means a non-zero transaction id and a non-zero
chainTimestamp on an OK result; an attempt with any digest not yet
anchored retries the whole batch instead of saving. -/
theorem anchorWait_bounded_and_all_anchored (digests : List String)
    (oracle : Nat → Option (List VerifyDigest)) (i : Nat)
    (h : anchorWait digests oracle = some i)
    (replies : List VerifyDigest) (hrep : oracle i = some replies)
    (hlen : replies.length = digests.length) :
    periodMinutes = 5 ∧ anchorRetries = 36 ∧ i < 36 ∧
      attemptSuccess digests replies = true ∧
      ∀ v ∈ replies, digestAnchored v = true := by
  obtain ⟨hb, rs, hrs, hsucc⟩ :=
    anchorWaitGo_some digests oracle anchorRetries 0 i h
  rw [hrep] at hrs
  cases hrs
  refine ⟨rfl, rfl, ?_, hsucc, attemptSuccess_all digests replies hlen hsucc⟩
  simpa [anchorRetries, periodMinutes] using hb

/-- Oracle used by the C6 witness: every attempt returns an anchored reply
for the single digest "d". -/
def anchorOracleW : Nat → Option (List VerifyDigest) :=
  fun _ => some [⟨"d", resultOK, "tx", 5⟩]

/-- C6 witness. -/
theorem anchorWait_bounded_and_all_anchored_witness :
    anchorWait ["d"] anchorOracleW = some 0 ∧
      (periodMinutes = 5 ∧ anchorRetries = 36 ∧ 0 < 36 ∧
        attemptSuccess ["d"] [⟨"d", resultOK, "tx", 5⟩] = true ∧
        ∀ v ∈ [(⟨"d", resultOK, "tx", 5⟩ : VerifyDigest)],
          digestAnchored v = true) := by
  have hrun : anchorWait ["d"] anchorOracleW = some 0 := by decide
  exact ⟨hrun, anchorWait_bounded_and_all_anchored ["d"] anchorOracleW 0 hrun
    [⟨"d", resultOK, "tx", 5⟩] rfl rfl⟩

/-- The externally observable steps of one anchor cycle, in program order:
the dcrtime TimestampBatch submission in `anchorTrees`, the setting of the
`droppingAnchor` boolean at the top of `anchorWait`, each VerifyBatch poll,
the saving of the anchor records, and the deferred clearing of
`droppingAnchor` when `anchorWait` exits. -/
inductive AnchorEvent
  | submitBatch
  | setDropping
  | verifyPoll
  | saveAnchors
  | clearDropping
deriving DecidableEq, Repr

/-- anchor.go `anchorWait`, as its program-order event trace: if the
`droppingAnchor` boolean is already set the reentrancy check returns at
once; otherwise the boolean is set, the loop polls (`polls` VerifyBatch
calls), the anchors are saved when the final poll succeeded, and the
deferred clear runs on exit. -/
def anchorWaitEvents (dropping : Bool) (polls : Nat) (success : Bool) :
    List AnchorEvent :=
  if dropping then []
  else .setDropping ::
    (List.replicate polls .verifyPoll ++
      (if success then [.saveAnchors] else []) ++ [.clearDropping])

/-- anchor.go `anchorTrees`, as its program-order event trace followed by
the trace of the `anchorWait` it spawns: if the `droppingAnchor` boolean is
set the tick is skipped with no submission; otherwise the batch is
submitted to dcrtime and `anchorWait` is launched (which is where the
boolean gets set). -/
def anchorTreesEvents (dropping : Bool) (polls : Nat) (success : Bool) :
    List AnchorEvent :=
  if dropping then []
  else .submitBatch :: anchorWaitEvents false polls success

/-- C5 counterexample: in the program-order trace of an anchor cycle the
TimestampBatch submission comes strictly before the `droppingAnchor`
boolean is set (the boolean is only set inside the spawned `anchorWait`),
so the claim that the guard is set before the batch is submitted is false. -/
theorem dropping_set_after_submit :
    anchorTreesEvents false 1 true =
      [.submitBatch, .setDropping, .verifyPoll, .saveAnchors,
        .clearDropping] ∧
    (anchorTreesEvents false 1 true).indexOf AnchorEvent.submitBatch <
      (anchorTreesEvents false 1 true).indexOf AnchorEvent.setDropping := by
  decide

/-- C5 (amended): the `droppingAnchor` guard is set at the start of
`anchorWait`, immediately after the batch has been submitted, and is
cleared only when `anchorWait` exits (after success, a verify error, or
the 180-minute timeout); while the guard is set, an `anchorTrees` tick
skips without submitting a second batch, and a reentrant `anchorWait`
returns without polling. -/
theorem anchorTrees_guard (polls : Nat) (success : Bool) :
    anchorTreesEvents true polls success = [] ∧
    anchorWaitEvents true polls success = [] ∧
    anchorTreesEvents false polls success =
      (.submitBatch :: .setDropping ::
        (List.replicate polls .verifyPoll ++
          (if success then [.saveAnchors] else []))) ++ [.clearDropping] := by
  refine ⟨rfl, rfl, ?_⟩
  simp [anchorTreesEvents, anchorWaitEvents]

/-! ### Content validation (tstorebe.go) -/

/-- `backend.MetadataStream`: plugin id, stream id and payload. -/
structure MetadataStream where
  pluginID : String
  streamID : Nat
  payload : String
deriving DecidableEq, Repr

/-- `backend.File`: name, MIME type, hex SHA256 digest and base64
payload. -/
structure File where
  name : String
  mime : String
  digest : String
  payload : String
deriving DecidableEq, Repr

/-- Go `filepath.Base` for slash-separated paths: empty path gives ".",
trailing slashes are dropped, everything up to the final slash is dropped,
and an all-slash path gives "/". -/
def filepathBase (path : String) : String :=
  if path = "" then "."
  else
    let chars := (path.toList.reverse.dropWhile (fun c => c = '/')).reverse
    if chars = [] then "/"
    else String.mk (chars.reverse.takeWhile (fun c => c ≠ '/')).reverse

/-- tstorebe.go `metadataStreamsVerify` loop with the accumulated set of
`(pluginID, streamID)` pairs already seen: each stream must have a plugin
id, a non-zero stream id and a payload, and no pair may repeat. -/
def metadataStreamsVerifyGo (seen : List (String × Nat)) :
    List MetadataStream → Option ContentErrorCode
  | [] => none
  | v :: rest =>
    if v.pluginID = "" then some .metadataStreamInvalid
    else if v.streamID = 0 then some .metadataStreamInvalid
    else if v.payload = "" then some .metadataStreamInvalid
    else if (v.pluginID, v.streamID) ∈ seen then some .metadataStreamDuplicate
    else metadataStreamsVerifyGo ((v.pluginID, v.streamID) :: seen) rest

/-- tstorebe.go `metadataStreamsVerify`. -/
def metadataStreamsVerify (metadata : List MetadataStream) :
    Option ContentErrorCode :=
  metadataStreamsVerifyGo [] metadata

/-- The external functions `filesVerify` calls into: `gozaru.Sanitize`,
`util.ConvertDigest` (hex decode to a 32-byte digest),
`util.Digest` (SHA256), `base64.StdEncoding.DecodeString`,
`mime.DetectMimeType` and `mime.MimeValid`.  Decoded byte strings are
modelled as `List Nat`. -/
structure FileExternals where
  sanitize : String → String
  convertDigest : String → Option (List Nat)
  digestFn : List Nat → List Nat
  base64Decode : String → Option (List Nat)
  detectMime : List Nat → String
  mimeValid : String → Bool

/-- The per-file checks of the final loop of tstorebe.go `filesVerify`:
sanitized name, convertible declared digest, non-empty payload, decodable
base64, digest match, detected-MIME match, allowed MIME. -/
def fileCheck (ext : FileExternals) (f : File) : Option ContentErrorCode :=
  if ext.sanitize f.name ≠ f.name then some .fileNameInvalid
  else
    match ext.convertDigest f.digest with
    | none => some .fileDigestInvalid
    | some d =>
      if f.payload = "" then some .filePayloadInvalid
      else
        match ext.base64Decode f.payload with
        | none => some .filePayloadInvalid
        | some payload =>
          if d ≠ ext.digestFn payload then some .fileDigestInvalid
          else if ext.detectMime payload ≠ f.mime then
            some .fileMIMETypeInvalid
          else if ¬ ext.mimeValid f.mime then some .fileMIMETypeUnsupported
          else none

/-- The duplicate-name scan of tstorebe.go `filesVerify`: walk the names
with the set already seen, reporting the first repeat. -/
def firstDupGo (seen : List String) : List String → Option String
  | [] => none
  | n :: rest => if n ∈ seen then some n else firstDupGo (n :: seen) rest

/-- tstorebe.go `filesVerify`: empty-lists check, path checks on file adds
then file deletes, duplicate-name check across adds and deletes, then the
per-file loop (note the Go code applies the sanitize check only to file
adds; delete names get only the path check). -/
def filesVerify (ext : FileExternals) (files : List File)
    (filesDel : List String) : Option ContentErrorCode :=
  if files = [] ∧ filesDel = [] then some .filesEmpty
  else
    match files.findSome? (fun f =>
        if filepathBase f.name ≠ f.name then
          some ContentErrorCode.fileNameInvalid
        else none) with
    | some e => some e
    | none =>
      match filesDel.findSome? (fun n =>
          if filepathBase n ≠ n then some ContentErrorCode.fileNameInvalid
          else none) with
      | some e => some e
      | none =>
        match firstDupGo [] (files.map File.name ++ filesDel) with
        | some _ => some .fileNameDuplicate
        | none => files.findSome? (fileCheck ext)

theorem firstDupGo_eq_none (l : List String) :
    ∀ seen, firstDupGo seen l = none ↔
      ((∀ x ∈ l, x ∉ seen) ∧ l.Nodup) := by
  induction l with
  | nil => intro seen; simp [firstDupGo]
  | cons n rest ih =>
    intro seen
    simp only [firstDupGo]
    by_cases hn : n ∈ seen
    · rw [if_pos hn]
      simp only [List.nodup_cons]
      constructor
      · intro h; cases h
      · intro ⟨h1, _⟩
        exact absurd hn (h1 n (List.mem_cons_self n rest))
    · rw [if_neg hn]
      rw [ih (n :: seen)]
      constructor
      · rintro ⟨h1, h2⟩
        refine ⟨?_, List.nodup_cons.mpr ⟨?_, h2⟩⟩
        · intro x hx
          rcases List.mem_cons.mp hx with rfl | hxr
          · exact hn
          · exact fun hc => h1 x hxr (List.mem_cons_of_mem _ hc)
        · intro hc
          exact h1 n hc (List.mem_cons_self n seen)
      · rintro ⟨h1, h2⟩
        rw [List.nodup_cons] at h2
        refine ⟨?_, h2.2⟩
        intro x hx hc
        rcases List.mem_cons.mp hc with rfl | hcs
        · exact h2.1 hx
        · exact h1 x (List.mem_cons_of_mem _ hx) hcs

theorem fileCheck_eq_none (ext : FileExternals) (f : File)
    (h : fileCheck ext f = none) :
    ext.sanitize f.name = f.name ∧
    ext.mimeValid f.mime = true ∧
    ∀ p, ext.base64Decode f.payload = some p →
      ext.convertDigest f.digest = some (ext.digestFn p) ∧
      ext.detectMime p = f.mime := by
  simp only [fileCheck] at h
  by_cases hs : ext.sanitize f.name = f.name
  · rw [if_neg (not_not_intro hs)] at h
    cases hcd : ext.convertDigest f.digest with
    | none => simp only [hcd] at h; cases h
    | some d =>
      simp only [hcd] at h
      by_cases hpay : f.payload = ""
      · rw [if_pos hpay] at h; cases h
      · rw [if_neg hpay] at h
        cases hb : ext.base64Decode f.payload with
        | none => simp only [hb] at h; cases h
        | some payload =>
          simp only [hb] at h
          by_cases hd : d = ext.digestFn payload
          · rw [if_neg (not_not_intro hd)] at h
            by_cases hdm : ext.detectMime payload = f.mime
            · rw [if_neg (not_not_intro hdm)] at h
              by_cases hmv : ext.mimeValid f.mime = true
              · refine ⟨hs, hmv, ?_⟩
                intro p hp
                cases hp
                exact ⟨by rw [hd], hdm⟩
              · rw [if_pos (by simpa using hmv)] at h; cases h
            · rw [if_pos hdm] at h; cases h
          · rw [if_pos hd] at h; cases h
  · rw [if_pos hs] at h; cases h

/-- C7 (amended): `filesVerify` rejects with a ContentError whenever both
the add and delete lists are empty; an add or delete name is not its own
basename; an add name differs from its sanitized form (delete names are
not passed through sanitization); a name repeats across adds and deletes;
an add's declared digest does not equal the SHA256 of its base64-decoded
payload; the MIME detected from the payload differs from the declared
MIME; or the declared MIME is not in the allowed set. -/
theorem filesVerify_rejects (ext : FileExternals) (files : List File)
    (filesDel : List String)
    (hcond :
      (files = [] ∧ filesDel = []) ∨
      (∃ f ∈ files, filepathBase f.name ≠ f.name) ∨
      (∃ n ∈ filesDel, filepathBase n ≠ n) ∨
      (∃ f ∈ files, ext.sanitize f.name ≠ f.name) ∨
      ¬ (files.map File.name ++ filesDel).Nodup ∨
      (∃ f ∈ files, ∃ p, ext.base64Decode f.payload = some p ∧
        ext.convertDigest f.digest ≠ some (ext.digestFn p)) ∨
      (∃ f ∈ files, ∃ p, ext.base64Decode f.payload = some p ∧
        ext.detectMime p ≠ f.mime) ∨
      (∃ f ∈ files, ext.mimeValid f.mime = false)) :
    (filesVerify ext files filesDel).isSome := by
  rcases hres : filesVerify ext files filesDel with _ | e
  · exfalso
    simp only [filesVerify] at hres
    by_cases hempty : files = [] ∧ filesDel = []
    · rw [if_pos hempty] at hres; cases hres
    rw [if_neg hempty] at hres
    cases hb1 : files.findSome? (fun f =>
        if filepathBase f.name ≠ f.name then
          some ContentErrorCode.fileNameInvalid
        else none) with
    | some e => rw [hb1] at hres; cases hres
    | none =>
    rw [hb1] at hres
    cases hb2 : filesDel.findSome? (fun n =>
        if filepathBase n ≠ n then some ContentErrorCode.fileNameInvalid
        else none) with
    | some e => rw [hb2] at hres; cases hres
    | none =>
    rw [hb2] at hres
    cases hb3 : firstDupGo [] (files.map File.name ++ filesDel) with
    | some n => rw [hb3] at hres; cases hres
    | none =>
    rw [hb3] at hres
    have hbase1 : ∀ f ∈ files, filepathBase f.name = f.name := by
      intro f hf
      have := List.findSome?_eq_none_iff.mp hb1 f hf
      by_cases hc : filepathBase f.name = f.name
      · exact hc
      · rw [if_pos hc] at this; cases this
    have hbase2 : ∀ n ∈ filesDel, filepathBase n = n := by
      intro n hn
      have := List.findSome?_eq_none_iff.mp hb2 n hn
      by_cases hc : filepathBase n = n
      · exact hc
      · rw [if_pos hc] at this; cases this
    have hnodup : (files.map File.name ++ filesDel).Nodup :=
      ((firstDupGo_eq_none _ []).mp hb3).2
    have hfile : ∀ f ∈ files, fileCheck ext f = none :=
      List.findSome?_eq_none_iff.mp hres
    rcases hcond with hc | hc | hc | hc | hc | hc | hc | hc
    · exact hempty hc
    · obtain ⟨f, hf, hne⟩ := hc; exact hne (hbase1 f hf)
    · obtain ⟨n, hn, hne⟩ := hc; exact hne (hbase2 n hn)
    · obtain ⟨f, hf, hne⟩ := hc
      exact hne (fileCheck_eq_none ext f (hfile f hf)).1
    · exact hc hnodup
    · obtain ⟨f, hf, p, hp, hne⟩ := hc
      exact hne ((fileCheck_eq_none ext f (hfile f hf)).2.2 p hp).1
    · obtain ⟨f, hf, p, hp, hne⟩ := hc
      exact hne ((fileCheck_eq_none ext f (hfile f hf)).2.2 p hp).2
    · obtain ⟨f, hf, hne⟩ := hc
      rw [(fileCheck_eq_none ext f (hfile f hf)).2.1] at hne
      cases hne
  · rfl

/-- Concrete model of `gozaru.Sanitize`'s character filter: control
characters and the reserved characters `/ \ : * ? " < > |` are removed
from the name.  (The real library also trims whitespace and windows
reserved names; the filter alone suffices for the inputs used here.) -/
def gozaruSanitize (s : String) : String :=
  String.mk (s.toList.filter (fun c =>
    !(c.toNat < 32 ||
      c ∈ ['/', '\\', ':', '*', '?', '"', '<', '>', '|'])))

/-- Externals used at the C7 counterexample and witness inputs: the
sanitizer is `gozaruSanitize`; the file-add lists there are empty, so the
remaining components are never consulted and are given trivial values. -/
def filesVerifyExternalsCE : FileExternals :=
  { sanitize := gozaruSanitize
    convertDigest := fun _ => none
    digestFn := fun p => p
    base64Decode := fun _ => none
    detectMime := fun _ => ""
    mimeValid := fun _ => false }

/-- C7 counterexample: the delete name "a:" is its own basename but
differs from its sanitized form ("a"), yet `filesVerify` accepts the
request — the sanitize check is applied only to file adds, so the claim
that any delete name differing from its sanitized form is rejected is
false. -/
theorem filesVerify_delete_name_not_sanitized :
    gozaruSanitize "a:" ≠ "a:" ∧ filepathBase "a:" = "a:" ∧
      filesVerify filesVerifyExternalsCE [] ["a:"] = none := by
  refine ⟨by decide, by decide, ?_⟩
  rfl

/-- C7 witness for the amended theorem: empty add and delete lists are
rejected. -/
theorem filesVerify_rejects_witness :
    (filesVerify filesVerifyExternalsCE [] []).isSome :=
  filesVerify_rejects filesVerifyExternalsCE [] [] (.inl ⟨rfl, rfl⟩)

/-! ### Metadata-stream merge and file update (tstorebe.go) -/

/-- Insert into a Go map modelled as an association list: replace the
binding in place when the key exists, append a new binding otherwise. -/
def assocInsert {β : Type} (m : List (String × β)) (k : String) (v : β) :
    List (String × β) :=
  match m with
  | [] => [(k, v)]
  | (k2, v2) :: rest =>
    if k2 = k then (k, v) :: rest else (k2, v2) :: assocInsert rest k v

/-- Lookup in a Go map modelled as an association list. -/
def assocLookup {β : Type} (m : List (String × β)) (k : String) : Option β :=
  match m with
  | [] => none
  | (k2, v2) :: rest => if k2 = k then some v2 else assocLookup rest k

/-- Delete from a Go map modelled as an association list (keys are unique,
so removing the first binding suffices). -/
def assocErase {β : Type} (m : List (String × β)) (k : String) :
    List (String × β) :=
  match m with
  | [] => []
  | (k2, v2) :: rest => if k2 = k then rest else (k2, v2) :: assocErase rest k

/-- The map key used by tstorebe.go `metadataStreamsUpdate`:
`v.PluginID + strconv.FormatUint(uint64(v.StreamID), 10)` — the plugin id
concatenated with the decimal stream id. -/
def mdKey (pluginID : String) (streamID : Nat) : String :=
  pluginID ++ toString streamID

/-- The map of current metadata streams built at the top of
tstorebe.go `metadataStreamsUpdate`. -/
def streamsMap (curr : List MetadataStream) : List (String × MetadataStream) :=
  curr.foldl (fun m v => assocInsert m (mdKey v.pluginID v.streamID) v) []

/-- tstorebe.go `metadataStreamsUpdate`: build the map of current streams,
apply overwrites, then apply appends — an append with no existing stream
for its key becomes the full stream, an append onto an existing stream
concatenates the payloads — and return the map's values.  (The Go map
iteration order of the returned slice is arbitrary; the model returns the
values in insertion order, which the lookup-based theorems below do not
depend on.) -/
def metadataStreamsUpdate (curr mdAppend mdOverwrite : List MetadataStream) :
    List MetadataStream :=
  let md := streamsMap curr
  let md := mdOverwrite.foldl
    (fun m v => assocInsert m (mdKey v.pluginID v.streamID) v) md
  let md := mdAppend.foldl (fun m v =>
    match assocLookup m (mdKey v.pluginID v.streamID) with
    | none => assocInsert m (mdKey v.pluginID v.streamID) v
    | some ex => assocInsert m (mdKey v.pluginID v.streamID)
        { ex with payload := ex.payload ++ v.payload }) md
  md.map Prod.snd

/-- Well-formedness of a modelled metadata-stream map: keys are distinct
and every binding's key is the `mdKey` of its value. -/
def mdMapWF (m : List (String × MetadataStream)) : Prop :=
  (m.map Prod.fst).Nodup ∧ ∀ p ∈ m, mdKey p.2.pluginID p.2.streamID = p.1

theorem mem_keys_assocInsert (k x : String) (v : MetadataStream) :
    ∀ m : List (String × MetadataStream),
      x ∈ (assocInsert m k v).map Prod.fst →
        x ∈ m.map Prod.fst ∨ x = k := by
  intro m
  induction m with
  | nil =>
    intro hx
    simp only [assocInsert, List.map_cons, List.map_nil] at hx
    rcases List.mem_cons.mp hx with rfl | hx
    · exact Or.inr rfl
    · cases hx
  | cons p rest ih =>
    obtain ⟨k2, v2⟩ := p
    intro hx
    simp only [assocInsert] at hx
    by_cases hk : k2 = k
    · rw [if_pos hk] at hx
      simp only [List.map_cons] at hx ⊢
      rcases List.mem_cons.mp hx with rfl | hx
      · exact Or.inr rfl
      · exact Or.inl (List.mem_cons_of_mem _ hx)
    · rw [if_neg hk] at hx
      simp only [List.map_cons] at hx ⊢
      rcases List.mem_cons.mp hx with rfl | hx
      · exact Or.inl (List.mem_cons_self _ _)
      · rcases ih hx with hm | rfl
        · exact Or.inl (List.mem_cons_of_mem _ hm)
        · exact Or.inr rfl

theorem assocInsert_WF (k : String) (v : MetadataStream)
    (hk : mdKey v.pluginID v.streamID = k) :
    ∀ m : List (String × MetadataStream), mdMapWF m →
      mdMapWF (assocInsert m k v) := by
  intro m
  induction m with
  | nil =>
    intro _
    refine ⟨by simp [assocInsert], ?_⟩
    intro p hp
    simp only [assocInsert, List.mem_singleton] at hp
    subst hp
    exact hk
  | cons q rest ih =>
    obtain ⟨k2, v2⟩ := q
    intro ⟨hnd, hco⟩
    simp only [List.map_cons, List.nodup_cons] at hnd
    simp only [assocInsert]
    by_cases hk2 : k2 = k
    · rw [if_pos hk2]
      subst hk2
      refine ⟨by simp only [List.map_cons, List.nodup_cons]; exact hnd, ?_⟩
      intro p hp
      rcases List.mem_cons.mp hp with rfl | hp
      · exact hk
      · exact hco p (List.mem_cons_of_mem _ hp)
    · rw [if_neg hk2]
      have hwfr : mdMapWF rest :=
        ⟨hnd.2, fun p hp => hco p (List.mem_cons_of_mem _ hp)⟩
      obtain ⟨ind, ico⟩ := ih hwfr
      refine ⟨?_, ?_⟩
      · simp only [List.map_cons, List.nodup_cons]
        refine ⟨?_, ind⟩
        intro hc
        rcases mem_keys_assocInsert k k2 v rest hc with hm | rfl
        · exact hnd.1 hm
        · exact hk2 rfl
      · intro p hp
        rcases List.mem_cons.mp hp with rfl | hp
        · exact hco (k2, v2) (List.mem_cons_self _ _)
        · exact ico p hp

theorem assocLookup_assocInsert_self (k : String) (v : MetadataStream) :
    ∀ m : List (String × MetadataStream),
      assocLookup (assocInsert m k v) k = some v := by
  intro m
  induction m with
  | nil => simp [assocInsert, assocLookup]
  | cons q rest ih =>
    obtain ⟨k2, v2⟩ := q
    simp only [assocInsert]
    by_cases hk2 : k2 = k
    · rw [if_pos hk2]; simp [assocLookup]
    · rw [if_neg hk2]
      simp only [assocLookup, if_neg hk2]
      exact ih

theorem assocLookup_WF_key (k : String) (v : MetadataStream) :
    ∀ m : List (String × MetadataStream), mdMapWF m →
      assocLookup m k = some v → mdKey v.pluginID v.streamID = k := by
  intro m
  induction m with
  | nil => intro _ h; cases h
  | cons q rest ih =>
    obtain ⟨k2, v2⟩ := q
    intro ⟨hnd, hco⟩ h
    simp only [assocLookup] at h
    by_cases hk2 : k2 = k
    · rw [if_pos hk2] at h
      cases h
      rw [hco (k2, v) (List.mem_cons_self _ _)]
      exact hk2
    · rw [if_neg hk2] at h
      simp only [List.map_cons, List.nodup_cons] at hnd
      exact ih ⟨hnd.2, fun p hp => hco p (List.mem_cons_of_mem _ hp)⟩ h

theorem find?_map_snd (k : String) :
    ∀ m : List (String × MetadataStream), mdMapWF m →
      (m.map Prod.snd).find?
          (fun s => mdKey s.pluginID s.streamID == k) = assocLookup m k := by
  intro m
  induction m with
  | nil => intro _; rfl
  | cons q rest ih =>
    obtain ⟨k2, v2⟩ := q
    intro ⟨hnd, hco⟩
    have hk2 : mdKey v2.pluginID v2.streamID = k2 :=
      hco (k2, v2) (List.mem_cons_self _ _)
    simp only [List.map_cons, List.find?, assocLookup]
    by_cases hkk : k2 = k
    · have : (mdKey v2.pluginID v2.streamID == k) = true := by
        rw [hk2, hkk]; exact beq_self_eq_true k
      rw [this, if_pos hkk]
    · have : (mdKey v2.pluginID v2.streamID == k) = false := by
        rw [hk2]; exact beq_eq_false_iff_ne.mpr hkk
      rw [this, if_neg hkk]
      have hwfr : mdMapWF rest := by
        simp only [List.map_cons, List.nodup_cons] at hnd
        exact ⟨hnd.2, fun p hp => hco p (List.mem_cons_of_mem _ hp)⟩
      exact ih hwfr

theorem streamsMap_WF (curr : List MetadataStream) : mdMapWF (streamsMap curr) := by
  have hgen : ∀ (l : List MetadataStream) (m : List (String × MetadataStream)),
      mdMapWF m →
      mdMapWF (l.foldl
        (fun m v => assocInsert m (mdKey v.pluginID v.streamID) v) m) := by
    intro l
    induction l with
    | nil => intro m hm; exact hm
    | cons v rest ih =>
      intro m hm
      exact ih _ (assocInsert_WF _ v rfl m hm)
  exact hgen curr [] ⟨List.nodup_nil, by intro p hp; cases hp⟩

/-- C9 counterexample: the Go map key is the string concatenation of the
plugin id and the decimal stream id, so the distinct pairs ("a", 11) and
("a1", 1) collide on the key "a11"; an append for ("a1", 1) does not
create that stream — it is concatenated onto the existing ("a", 11)
stream instead. -/
theorem metadataStreamsUpdate_pair_collision :
    metadataStreamsUpdate [⟨"a", 11, "X"⟩] [⟨"a1", 1, "Y"⟩] [] =
      [⟨"a", 11, "XY"⟩] ∧
    (metadataStreamsUpdate [⟨"a", 11, "X"⟩] [⟨"a1", 1, "Y"⟩] []).find?
      (fun s => s.pluginID == "a1" && s.streamID == 1) = none := by
  constructor
  · rfl
  · rfl

/-- C9 (amended): in the metadata-stream merge, streams are keyed by the
concatenated string `pluginID ++ decimal streamID` (not by the pair): an
append whose key matches no existing stream creates that stream with the
append payload as its full contents; an append whose key matches an
existing stream concatenates the new payload onto that stream's payload
(keeping that stream's plugin and stream ids); an overwrite replaces the
stream under its key entirely. -/
theorem metadataStreamsUpdate_stream_merge (curr : List MetadataStream)
    (a o : MetadataStream) :
    (assocLookup (streamsMap curr) (mdKey a.pluginID a.streamID) = none →
      (metadataStreamsUpdate curr [a] []).find?
          (fun s => mdKey s.pluginID s.streamID ==
            mdKey a.pluginID a.streamID) = some a) ∧
    (∀ ex, assocLookup (streamsMap curr) (mdKey a.pluginID a.streamID) =
        some ex →
      (metadataStreamsUpdate curr [a] []).find?
          (fun s => mdKey s.pluginID s.streamID ==
            mdKey a.pluginID a.streamID) =
        some { ex with payload := ex.payload ++ a.payload }) ∧
    ((metadataStreamsUpdate curr [] [o]).find?
        (fun s => mdKey s.pluginID s.streamID ==
          mdKey o.pluginID o.streamID) = some o) := by
  have hwf := streamsMap_WF curr
  refine ⟨?_, ?_, ?_⟩
  · intro hnone
    simp only [metadataStreamsUpdate, List.foldl_nil, List.foldl_cons, hnone]
    rw [find?_map_snd _ _ (assocInsert_WF _ a rfl _ hwf)]
    exact assocLookup_assocInsert_self _ a _
  · intro ex hex
    have hkex : mdKey ex.pluginID ex.streamID = mdKey a.pluginID a.streamID :=
      assocLookup_WF_key _ ex _ hwf hex
    simp only [metadataStreamsUpdate, List.foldl_nil, List.foldl_cons, hex]
    rw [find?_map_snd _ _
      (assocInsert_WF _ { ex with payload := ex.payload ++ a.payload }
        hkex _ hwf)]
    exact assocLookup_assocInsert_self _ _ _
  · simp only [metadataStreamsUpdate, List.foldl_nil, List.foldl_cons]
    rw [find?_map_snd _ _ (assocInsert_WF _ o rfl _ hwf)]
    exact assocLookup_assocInsert_self _ o _

/-- C9 witness for the amended theorem: a fresh append creates the stream,
an append onto an existing stream concatenates, an overwrite replaces. -/
theorem metadataStreamsUpdate_stream_merge_witness :
    ((metadataStreamsUpdate [⟨"p", 1, "X"⟩] [⟨"q", 2, "Y"⟩] []).find?
        (fun s => mdKey s.pluginID s.streamID == mdKey "q" 2) =
      some ⟨"q", 2, "Y"⟩) ∧
    ((metadataStreamsUpdate [⟨"p", 1, "X"⟩] [⟨"p", 1, "Z"⟩] []).find?
        (fun s => mdKey s.pluginID s.streamID == mdKey "p" 1) =
      some ⟨"p", 1, "XZ"⟩) ∧
    ((metadataStreamsUpdate [⟨"p", 1, "X"⟩] [] [⟨"p", 1, "W"⟩]).find?
        (fun s => mdKey s.pluginID s.streamID == mdKey "p" 1) =
      some ⟨"p", 1, "W"⟩) :=
  ⟨(metadataStreamsUpdate_stream_merge [⟨"p", 1, "X"⟩] ⟨"q", 2, "Y"⟩
      ⟨"p", 1, "W"⟩).1 (by decide),
    (metadataStreamsUpdate_stream_merge [⟨"p", 1, "X"⟩] ⟨"p", 1, "Z"⟩
      ⟨"p", 1, "W"⟩).2.1 ⟨"p", 1, "X"⟩ (by decide),
    (metadataStreamsUpdate_stream_merge [⟨"p", 1, "X"⟩] ⟨"p", 1, "Z"⟩
      ⟨"p", 1, "W"⟩).2.2⟩

/-! ### RecordEdit change detection (tstorebe.go) -/

/-- tstorebe.go `filesUpdate`: build the name-keyed map of current files,
apply deletes, apply adds (an add replaces a same-name file), and return
the values. -/
def filesUpdate (filesCurr filesAdd : List File) (filesDel : List String) :
    List File :=
  let curr := filesCurr.foldl (fun m v => assocInsert m v.name v) []
  let curr := filesDel.foldl (fun m fn => assocErase m fn) curr
  let curr := filesAdd.foldl (fun m v => assocInsert m v.name v) curr
  curr.map Prod.snd

/-- The externally visible steps of a successful `RecordEdit` after the
change check: the pre edit hook, the record save, and the post edit hook,
in program order. -/
inductive EditEffect
  | hookEditRecordPre
  | recordSave
  | hookEditRecordPost
deriving DecidableEq, Repr

/-- The parts of `backend.Record` that `RecordEdit`'s change detection
reads: the previous iteration's merkle root (from its record metadata) and
the current metadata streams and files. -/
structure Record where
  merkle : String
  metadata : List MetadataStream
  files : List File
deriving DecidableEq, Repr

/-- tstorebe.go `RecordEdit` from content verification to the save:
verify the combined metadata streams and the file changes, apply the
metadata merge and file update, compute the new merkle root over the
updated file digests (`recordMetadataNew` via `util.MerkleRoot`, taken as
the parameter `merkleRoot`), and return `ErrNoRecordChanges` before any
hook or save when it equals the previous merkle root.  The existence,
shutdown and record-lock checks that precede this in Go are outside the
model.  The effect list records which hooks and saves run. -/
def recordEdit (ext : FileExternals) (merkleRoot : List String → String)
    (r : Record) (mdAppend mdOverwrite : List MetadataStream)
    (filesAdd : List File) (filesDel : List String) :
    Except BackendError Record × List EditEffect :=
  match metadataStreamsVerify (mdAppend ++ mdOverwrite) with
  | some e => (.error (.content e), [])
  | none =>
    match filesVerify ext filesAdd filesDel with
    | some e => (.error (.content e), [])
    | none =>
      let metadata := metadataStreamsUpdate r.metadata mdAppend mdOverwrite
      let files := filesUpdate r.files filesAdd filesDel
      let newMerkle := merkleRoot (files.map File.digest)
      if r.merkle = newMerkle then (.error .noRecordChanges, [])
      else
        (.ok { merkle := newMerkle, metadata := metadata, files := files },
          [.hookEditRecordPre, .recordSave, .hookEditRecordPost])

/-- C4: when the updated file set's merkle root equals the previous
iteration's merkle root, `RecordEdit` returns `ErrNoRecordChanges` with no
effects: the record is not saved and neither the pre nor the post edit
hook fires. -/
theorem recordEdit_no_changes (ext : FileExternals)
    (merkleRoot : List String → String) (r : Record)
    (mdAppend mdOverwrite : List MetadataStream)
    (filesAdd : List File) (filesDel : List String)
    (hmd : metadataStreamsVerify (mdAppend ++ mdOverwrite) = none)
    (hfv : filesVerify ext filesAdd filesDel = none)
    (hm : merkleRoot ((filesUpdate r.files filesAdd filesDel).map
      File.digest) = r.merkle) :
    recordEdit ext merkleRoot r mdAppend mdOverwrite filesAdd filesDel =
      (.error .noRecordChanges, []) := by
  simp only [recordEdit, hmd, hfv]
  rw [if_pos hm.symm]

/-- C4 witness: deleting a file name that the record does not contain
passes content validation but leaves the file set, and hence the merkle
root, unchanged. -/
theorem recordEdit_no_changes_witness :
    metadataStreamsVerify ([] ++ []) = none ∧
    filesVerify filesVerifyExternalsCE [] ["zzz"] = none ∧
    String.join ((filesUpdate [⟨"b", "m", "dgst", "p"⟩] [] ["zzz"]).map
      File.digest) = "dgst" ∧
    recordEdit filesVerifyExternalsCE String.join
        ⟨"dgst", [], [⟨"b", "m", "dgst", "p"⟩]⟩ [] [] [] ["zzz"] =
      (.error .noRecordChanges, []) :=
  ⟨rfl, rfl, rfl,
    recordEdit_no_changes filesVerifyExternalsCE String.join
      ⟨"dgst", [], [⟨"b", "m", "dgst", "p"⟩]⟩ [] [] [] ["zzz"]
      rfl rfl rfl⟩

/-! ### Billing-status plugin (pi plugin, cmdSetBillingStatus) -/

/-- pi `BillingStatusT`: invalid, active, closed, completed. -/
inductive BillingStatusT
  | invalid
  | active
  | closed
  | completed
deriving DecidableEq, Repr

/-- ticketvote `VoteStatusT`. -/
inductive VoteStatusT
  | invalid
  | unauthorized
  | authorized
  | started
  | finished
  | approved
  | rejected
  | ineligible
deriving DecidableEq, Repr

/-- The pi plugin's `billingStatusChanges` map:
`billingStatusChanges cur new = true` iff
`billingStatusChanges[cur][new]` exists in the Go map — every transition
among active, closed and completed except same-to-same. -/
def billingStatusChanges (cur new : BillingStatusT) : Bool :=
  match cur, new with
  | .active, .closed => true
  | .active, .completed => true
  | .closed, .active => true
  | .closed, .completed => true
  | .completed, .active => true
  | .completed, .closed => true
  | _, _ => false

/-- pi `proposalBillingStatus`: invalid when the vote was not approved;
active when approved with no billing status changes yet; otherwise the
status of the most recent change. -/
def proposalBillingStatus (vs : VoteStatusT) (bscs : List BillingStatusT) :
    BillingStatusT :=
  if vs ≠ .approved then .invalid
  else
    match bscs.getLast? with
    | none => .active
    | some s => s

/-- pi plugin error codes returned by `cmdSetBillingStatus` (contexts
omitted; all the billing-status precondition failures share the
`BillingStatusChangeNotAllowed` code). -/
inductive PiError
  | tokenInvalid
  | billingStatusInvalid
  | signatureInvalid
  | billingStatusChangeNotAllowed
deriving DecidableEq, Repr

/-- pi `cmdSetBillingStatus` in check order: token match, billing-status
validity, signature, non-empty reason when closing, approved vote, not an
RFP proposal, change count below the configured maximum
(`len(bscs)+1 > billingStatusChangesMax` rejects), and the
transition-table check against the current derived billing status; on
success the new change is appended.  The token and signature checks are
summarised by the booleans `tokenOk` and `sigOk`; `isRFP` is the decoded
vote-metadata check. -/
def cmdSetBillingStatus (tokenOk sigOk : Bool) (status : BillingStatusT)
    (reason : String) (voteStatus : VoteStatusT) (isRFP : Bool)
    (bscs : List BillingStatusT) (billingStatusChangesMax : Nat) :
    Except PiError (List BillingStatusT) :=
  if ¬ tokenOk then .error .tokenInvalid
  else if status = .invalid then .error .billingStatusInvalid
  else if ¬ sigOk then .error .signatureInvalid
  else if status = .closed ∧ reason = "" then
    .error .billingStatusChangeNotAllowed
  else if voteStatus ≠ .approved then .error .billingStatusChangeNotAllowed
  else if isRFP then .error .billingStatusChangeNotAllowed
  else if bscs.length + 1 > billingStatusChangesMax then
    .error .billingStatusChangeNotAllowed
  else if ¬ billingStatusChanges (proposalBillingStatus voteStatus bscs)
      status then
    .error .billingStatusChangeNotAllowed
  else .ok (bscs ++ [status])

/-- C8: `cmdSetBillingStatus` rejects with
`BillingStatusChangeNotAllowed` a transition to closed with an empty
reason, any request whose count of existing billing status changes plus
one exceeds the configured maximum, and any same-to-same transition
(where the current status derives from the vote status and the change
history); and the transition table allows every transition between two
distinct statuses among active, closed and completed. -/
theorem cmdSetBillingStatus_rejects (status : BillingStatusT)
    (reason : String) (voteStatus : VoteStatusT) (isRFP : Bool)
    (bscs : List BillingStatusT) (mx : Nat)
    (hstatus : status ≠ .invalid) :
    (status = .closed → reason = "" →
      cmdSetBillingStatus true true status reason voteStatus isRFP bscs mx =
        .error .billingStatusChangeNotAllowed) ∧
    (bscs.length + 1 > mx →
      cmdSetBillingStatus true true status reason voteStatus isRFP bscs mx =
        .error .billingStatusChangeNotAllowed) ∧
    (proposalBillingStatus voteStatus bscs = status →
      cmdSetBillingStatus true true status reason voteStatus isRFP bscs mx =
        .error .billingStatusChangeNotAllowed) ∧
    (∀ a b : BillingStatusT, a ≠ .invalid → b ≠ .invalid → a ≠ b →
      billingStatusChanges a b = true) := by
  refine ⟨?_, ?_, ?_, ?_⟩
  · intro hclosed hreason
    subst hclosed
    simp [cmdSetBillingStatus, hreason]
  · intro hmax
    simp only [cmdSetBillingStatus]
    split_ifs <;> simp_all
  · intro hcurr
    have hself : billingStatusChanges status status = false := by
      cases status <;> rfl
    simp only [cmdSetBillingStatus, hcurr, hself]
    split_ifs <;> simp_all
  · intro a b ha hb hab
    cases a <;> cases b <;> simp_all <;> rfl

/-- C8 witness: closing with an empty reason, exceeding the maximum
change count, and a same-to-same transition are each rejected, and the
distinct transition active→closed is allowed by the table. -/
theorem cmdSetBillingStatus_rejects_witness :
    cmdSetBillingStatus true true .closed "" .approved false [] 3 =
        .error .billingStatusChangeNotAllowed ∧
    cmdSetBillingStatus true true .completed "r" .approved false
        [.active, .closed, .active] 3 =
        .error .billingStatusChangeNotAllowed ∧
    cmdSetBillingStatus true true .active "r" .approved false [] 3 =
        .error .billingStatusChangeNotAllowed ∧
    billingStatusChanges .active .closed = true :=
  ⟨(cmdSetBillingStatus_rejects .closed "" .approved false [] 3
      (by decide)).1 rfl rfl,
    (cmdSetBillingStatus_rejects .completed "r" .approved false
      [.active, .closed, .active] 3 (by decide)).2.1 (by decide),
    (cmdSetBillingStatus_rejects .active "r" .approved false [] 3
      (by decide)).2.2.1 (by decide),
    (cmdSetBillingStatus_rejects .active "r" .approved false [] 3
      (by decide)).2.2.2 .active .closed (by decide) (by decide)
      (by decide)⟩

end Politeia
